import Mathlib

/-!
Verification of the 1D multi-node stratified storage tank model
(`storage1d.py`) against its natural-language specification.

The Python module is shallowly embedded here:
* real (float) quantities become exact rationals `ℚ`;
* the node-temperature vector becomes a `List ℚ`;
* the per-step update (side loss, axial conduction, advection) is a pure
  function over that list, following the source line by line;
* fallible entry points (`TankConfig.validate`,
  `simulate_stratified_tank`) return `Except`.
-/

namespace Storage1D

/-- Decidable equality for `Except` results, so that witnesses can be
checked by evaluation. -/
instance {ε α : Type} [DecidableEq ε] [DecidableEq α] : DecidableEq (Except ε α) := fun a b =>
  match a, b with
  | .error x, .error y =>
    if h : x = y then .isTrue (by rw [h]) else .isFalse (by intro hc; cases hc; exact h rfl)
  | .ok x, .ok y =>
    if h : x = y then .isTrue (by rw [h]) else .isFalse (by intro hc; cases hc; exact h rfl)
  | .error _, .ok _ => .isFalse (by intro hc; cases hc)
  | .ok _, .error _ => .isFalse (by intro hc; cases hc)

/-- `gq T i` reads node `i` of a temperature vector, defaulting to `0`
out of range (all verified accesses are in range). -/
def gq (T : List ℚ) (i : Nat) : ℚ := T.getD i 0

/-- Embedding of the `TankConfig` dataclass of `storage1d.py`.
Counts stay `Nat`; the two port indices are `Int` because the source
uses the sentinel `-1` for `discharge_outlet`. -/
structure TankConfig where
  n_nodes : Nat
  height : ℚ
  volume : ℚ
  rho : ℚ
  cp : ℚ
  ua_loss : ℚ
  k_cond : ℚ
  dt : ℚ
  n_steps : Nat
  charge_inlet : Int
  discharge_outlet : Int
deriving DecidableEq, Repr

/-- The sentinel normalization of source lines 87-88: a `-1` discharge
outlet becomes the top node index; the in-place mutation becomes
returning the updated record. -/
def normConfig (c : TankConfig) : TankConfig :=
  if c.discharge_outlet = -1 then
    { c with discharge_outlet := (c.n_nodes : Int) - 1 } else c

/-- Embedding of `TankConfig.validate`: the same sequence of checks, in
source order, with the sentinel normalization applied before the final
range check exactly as in the source. -/
def TankConfig.validate (c : TankConfig) : Except String TankConfig :=
  if c.n_nodes < 2 then .error "n_nodes must be >= 2."
  else if c.height ≤ 0 then .error "height must be > 0."
  else if c.volume ≤ 0 then .error "volume must be > 0."
  else if c.rho ≤ 0 ∨ c.cp ≤ 0 then .error "rho and cp must be > 0."
  else if c.dt ≤ 0 then .error "dt must be > 0."
  else if c.n_steps < 1 then .error "n_steps must be >= 1."
  else if ¬ (0 ≤ c.charge_inlet ∧ c.charge_inlet < (c.n_nodes : Int)) then
    .error "charge_inlet index out of range."
  else if ¬ (0 ≤ (normConfig c).discharge_outlet ∧
      (normConfig c).discharge_outlet < (c.n_nodes : Int)) then
    .error "discharge_outlet index out of range."
  else .ok (normConfig c)

/-- The geometric and physical constants `simulate_stratified_tank`
precomputes once (lines 136-141 of the source). -/
structure StepParams where
  n : Nat
  dt : ℚ
  cp : ℚ
  mass_node : ℚ
  ua_node : ℚ
  G_cond : ℚ
  i_in : Nat
  i_out : Nat
deriving DecidableEq, Repr

/-- Derived constants of a (validated) configuration, as computed at the
start of `simulate_stratified_tank`. -/
def TankConfig.params (c : TankConfig) : StepParams :=
  let dz := c.height / (c.n_nodes : ℚ)
  let area_cross := c.volume / c.height
  let vol_node := area_cross * dz
  { n := c.n_nodes
    dt := c.dt
    cp := c.cp
    mass_node := c.rho * vol_node
    ua_node := if c.ua_loss > 0 then c.ua_loss / (c.n_nodes : ℚ) else 0
    G_cond := if c.k_cond > 0 then c.k_cond * area_cross / dz else 0
    i_in := c.charge_inlet.toNat
    i_out := c.discharge_outlet.toNat }

/-- Side-loss phase body (source line 154-155), applied only when
`ua_node > 0`. -/
def lossStep (ua_node dt mass_node cp Tamb : ℚ) (Tn : List ℚ) : List ℚ :=
  Tn.map (fun x => x - ua_node * (x - Tamb) * dt / (mass_node * cp))

/-- Per-node conduction increment `dT_cond[i]` (source lines 160-166):
bottom, interior, and top stencil. -/
def condDelta (G dt mass_node cp : ℚ) (n : Nat) (Tn : List ℚ) (i : Nat) : ℚ :=
  if i = 0 then G * (gq Tn 1 - gq Tn 0) * dt / (mass_node * cp)
  else if i = n - 1 then G * (gq Tn (n - 2) - gq Tn (n - 1)) * dt / (mass_node * cp)
  else G * ((gq Tn (i - 1) - gq Tn i) + (gq Tn (i + 1) - gq Tn i)) * dt / (mass_node * cp)

/-- Conduction phase `Tn + dT_cond` (source line 167), applied only when
`G_cond > 0`. -/
def condStep (G dt mass_node cp : ℚ) (n : Nat) (Tn : List ℚ) : List ℚ :=
  (List.range n).map (fun i => gq Tn i + condDelta G dt mass_node cp n Tn i)

/-- One in-place convex mix `Tn[dst] = (1-f)*Tn[dst] + f*Tn[src]`, the
update shape shared by every advection assignment in the source. -/
def mixInto (f : ℚ) (dst src : Nat) (T : List ℚ) : List ℚ :=
  T.set dst ((1 - f) * gq T dst + f * gq T src)

/-- Charging branch (source lines 172-182): inlet mixing with `alpha`,
then the sequential upward propagation `for i in range(i_in, n-1)`. -/
def chargeAdvect (i_in n : Nat) (alpha frac Tin : ℚ) (Tn : List ℚ) : List ℚ :=
  let T1 := Tn.set i_in ((1 - alpha) * gq Tn i_in + alpha * Tin)
  if i_in < n - 1 then
    (List.range' i_in (n - 1 - i_in)).foldl (fun T i => mixInto frac (i + 1) i T) T1
  else T1

/-- Discharging branch (source lines 184-200): pull-through toward the
outlet; `for i in range(i_out-1, 0, -1)` above the bottom, and the
bottom-outlet branch with its dedicated first update followed by
`for i in range(0, n-2)`. -/
def dischargeAdvect (i_out n : Nat) (frac : ℚ) (Tn : List ℚ) : List ℚ :=
  if i_out > 0 then
    let T1 := mixInto frac i_out (i_out - 1) Tn
    ((List.range' 1 (i_out - 1)).reverse).foldl (fun T i => mixInto frac i (i - 1) T) T1
  else
    if n > 1 then
      let T1 := mixInto frac 0 1 Tn
      (List.range (n - 2)).foldl (fun T i => mixInto frac i (i + 1) T) T1
    else Tn

/-- Advection phase: three-way branch on the sign of the step's mass
flow (source lines 172-204). -/
def advect (p : StepParams) (mf Tin : ℚ) (Tn : List ℚ) : List ℚ :=
  if mf > 0 then
    chargeAdvect p.i_in p.n ((mf * p.dt) / (p.mass_node + mf * p.dt))
      (min 1 ((mf * p.dt) / p.mass_node)) Tin Tn
  else if mf < 0 then
    dischargeAdvect p.i_out p.n (min 1 ((|mf| * p.dt) / p.mass_node)) Tn
  else Tn

/-- Loss and conduction phases of one step (everything before the
advection branch). -/
def preAdvect (p : StepParams) (Tamb : ℚ) (Tprev : List ℚ) : List ℚ :=
  let Tn := if p.ua_node > 0 then lossStep p.ua_node p.dt p.mass_node p.cp Tamb Tprev
            else Tprev
  if p.G_cond > 0 then condStep p.G_cond p.dt p.mass_node p.cp p.n Tn else Tn

/-- One full time step: loss, conduction, then advection. -/
def stepRow (p : StepParams) (Tin Tamb mf : ℚ) (Tprev : List ℚ) : List ℚ :=
  advect p mf Tin (preAdvect p Tamb Tprev)

/-- Loss power recorded for one step (source line 156), computed from
the pre-update row; `0` when the loss phase is skipped. -/
def qLossRow (p : StepParams) (Tamb : ℚ) (Tprev : List ℚ) : ℚ :=
  if p.ua_node > 0 then (Tprev.map (fun x => p.ua_node * (x - Tamb))).sum else 0

/-- Row `t` of the temperature history: `t` applications of `stepRow`
to the initial profile, reading the step-`t` boundary values. -/
def Trow (p : StepParams) (Tin_charge m_flow T_amb T_init : List ℚ) : Nat → List ℚ
  | 0 => T_init
  | t + 1 =>
    stepRow p (gq Tin_charge t) (gq T_amb t) (gq m_flow t)
      (Trow p Tin_charge m_flow T_amb T_init t)

/-- Result record of `simulate_stratified_tank` (the wall-clock
diagnostic is omitted: it is not modellable and no claim concerns it). -/
structure SimResult where
  T : List (List ℚ)
  T_top : List ℚ
  T_bot : List ℚ
  Q_loss : List ℚ
deriving DecidableEq, Repr

/-- Error taxonomy of the spec: configuration errors from `validate`,
dimension errors from the length checks at the start of `simulate`. -/
inductive SimError where
  | invalidConfiguration : String → SimError
  | dimensionMismatch : String → SimError
deriving DecidableEq, Repr

/-- Assembly of the result record once validation and the dimension
checks have passed: the full history (rows `0 … n_steps`), the top and
bottom column slices, and the loss-power series. -/
def mkResult (c : TankConfig) (Tin_charge m_flow T_amb T_init : List ℚ) : SimResult :=
  let p := c.params
  let hist := (List.range (c.n_steps + 1)).map (Trow p Tin_charge m_flow T_amb T_init)
  { T := hist
    T_top := hist.map (fun row => gq row (c.n_nodes - 1))
    T_bot := hist.map (fun row => gq row 0)
    Q_loss := (List.range c.n_steps).map
      (fun t => qLossRow p (gq T_amb t) (Trow p Tin_charge m_flow T_amb T_init t)) }

/-- Embedding of `simulate_stratified_tank`: validate, check the four
input lengths, then march `n_steps` steps and assemble the result. -/
def simulate_stratified_tank (cfg : TankConfig)
    (Tin_charge m_flow T_amb T_init : List ℚ) : Except SimError SimResult :=
  match cfg.validate with
  | .error e => .error (.invalidConfiguration e)
  | .ok c =>
    if Tin_charge.length ≠ c.n_steps then .error (.dimensionMismatch "Tin_charge")
    else if m_flow.length ≠ c.n_steps then .error (.dimensionMismatch "m_flow")
    else if T_amb.length ≠ c.n_steps then .error (.dimensionMismatch "T_amb")
    else if T_init.length ≠ c.n_nodes then .error (.dimensionMismatch "T_init")
    else .ok (mkResult c Tin_charge m_flow T_amb T_init)

/-! ### Concrete configurations used by witnesses and counterexamples -/

/-- A minimal idle-friendly configuration: two nodes, unit geometry and
properties, no losses, no conduction, one step, sentinel outlet. -/
def cfgU : TankConfig :=
  { n_nodes := 2, height := 1, volume := 1, rho := 1, cp := 1, ua_loss := 0,
    k_cond := 0, dt := 1, n_steps := 1, charge_inlet := 0, discharge_outlet := -1 }

/-- Conduction-only variant of `cfgU`. -/
def cfgC : TankConfig := { cfgU with k_cond := 1, n_nodes := 3 }

/-- Loss-only variant of `cfgU`. -/
def cfgL : TankConfig := { cfgU with ua_loss := 1 }

/-- Variant of `cfgU` with strictly negative loss and conduction
coefficients. -/
def cfgN : TankConfig := { cfgU with ua_loss := -1, k_cond := -2 }

/-- Three-node configuration discharging at the bottom outlet. -/
def cfgB : TankConfig :=
  { n_nodes := 3, height := 1, volume := 1, rho := 1, cp := 1, ua_loss := 0,
    k_cond := 0, dt := 1, n_steps := 1, charge_inlet := 0, discharge_outlet := 0 }

/-- A config with a sentinel outlet and a non-bottom inlet, for the
validation witness. -/
def cfgW : TankConfig :=
  { n_nodes := 4, height := 2, volume := 3, rho := 1, cp := 1, ua_loss := 0,
    k_cond := 0, dt := 1, n_steps := 2, charge_inlet := 1, discharge_outlet := -1 }

/-! ### Claim-side (specification) phrasings of the advection loops

The spec describes the propagation loops as sequential recurrences over
an index running between explicit bounds.  `seqUp` is that phrasing: it
applies `upd · i` for `k` consecutive indices starting at `i`, each
iteration seeing the result of the previous one. -/

/-- Sequential in-place update for indices `i, i+1, …, i+k-1`, in
increasing order, each iteration reading the already-updated vector. -/
def seqUp (upd : List ℚ → Nat → List ℚ) : Nat → Nat → List ℚ → List ℚ
  | _, 0, T => T
  | i, k + 1, T => seqUp upd (i + 1) k (upd T i)

/-- The charging advection phase exactly as the specification words it:
mix the inlet node with the incoming fluid, then, only when the inlet is
not the top node, run the sequential recurrence
`T[i+1] ← (1-frac)*T[i+1] + frac*T[i]` for `i = i_in, …, n-2` in
increasing order. -/
def chargePhaseClaim (i_in n : Nat) (alpha frac Tin : ℚ) (T : List ℚ) : List ℚ :=
  let T1 := T.set i_in ((1 - alpha) * gq T i_in + alpha * Tin)
  if i_in < n - 1 then
    seqUp (fun T i => T.set (i + 1) ((1 - frac) * gq T (i + 1) + frac * gq T i))
      i_in (n - 1 - i_in) T1
  else T1

/-- The bottom-outlet discharge phase exactly as claim C1 words it: the
sequential recurrence `T[i] ← (1-frac)*T[i] + frac*T[i+1]` for
`i = 0, …, n-3` in increasing order, and nothing else. -/
def dischargeBottomClaim (n : Nat) (frac : ℚ) (T : List ℚ) : List ℚ :=
  seqUp (fun T i => T.set i ((1 - frac) * gq T i + frac * gq T (i + 1))) 0 (n - 2) T

/-- Downward ("from below") part of the conduction stencil at node `i`. -/
def condL (T : List ℚ) (i : Nat) : ℚ :=
  if i = 0 then 0 else gq T (i - 1) - gq T i

/-- Upward ("from above") part of the conduction stencil at node `i`,
with `m` the top index. -/
def condR (T : List ℚ) (m i : Nat) : ℚ :=
  if i = m then 0 else gq T (i + 1) - gq T i

/-- Minimum entry of a node vector (`0` for the empty list; all rows in
a validated run are nonempty). -/
def listMin : List ℚ → ℚ
  | [] => 0
  | x :: xs => xs.foldl min x

/-- Maximum entry of a node vector (`0` for the empty list). -/
def listMax : List ℚ → ℚ
  | [] => 0
  | x :: xs => xs.foldl max x

/-! ### Basic list access lemmas -/

lemma gq_eq_getElem (T : List ℚ) (i : Nat) (h : i < T.length) : gq T i = T[i] :=
  List.getD_eq_getElem T 0 h

lemma gq_mem (T : List ℚ) (i : Nat) (h : i < T.length) : gq T i ∈ T := by
  rw [gq_eq_getElem T i h]; exact List.getElem_mem h

lemma gq_set_self (T : List ℚ) (i : Nat) (v : ℚ) (h : i < T.length) :
    gq (T.set i v) i = v := by
  simp [gq, List.getD_eq_getElem?_getD, List.getElem?_set_self, h]

lemma gq_set_ne (T : List ℚ) {i j : Nat} (v : ℚ) (h : i ≠ j) :
    gq (T.set i v) j = gq T j := by
  simp [gq, List.getD_eq_getElem?_getD, List.getElem?_set_ne h]

lemma gq_replicate (m : Nat) (a : ℚ) {t : Nat} (h : t < m) :
    gq (List.replicate m a) t = a := by
  rw [gq, List.getD_eq_getElem?_getD]
  simp [List.getElem?_replicate, h]

lemma gq_all_zero {l : List ℚ} (h : ∀ x ∈ l, x = 0) (t : Nat) : gq l t = 0 := by
  by_cases ht : t < l.length
  · exact h _ (gq_mem l t ht)
  · simp [gq, List.getD_eq_getElem?_getD, List.getElem?_eq_none (le_of_not_lt ht)]

/-- A `foldl` over `List.range' i k` is the sequential recurrence
`seqUp` — the bridge between the source's loop translation and the
spec's phrasing. -/
lemma foldl_range'_eq_seqUp (upd : List ℚ → Nat → List ℚ) :
    ∀ (k i : Nat) (T : List ℚ),
      (List.range' i k).foldl upd T = seqUp upd i k T := by
  intro k
  induction k with
  | zero => intro i T; rfl
  | succ k ih =>
    intro i T
    rw [List.range'_succ, List.foldl_cons, seqUp, ih]

lemma foldl_range_eq_seqUp (upd : List ℚ → Nat → List ℚ) (k : Nat) (T : List ℚ) :
    (List.range k).foldl upd T = seqUp upd 0 k T := by
  rw [List.range_eq_range', foldl_range'_eq_seqUp]

/-! ### Characterization of `validate` -/

/-- Conjunction of all conditions `validate` checks (with the outlet
condition read after sentinel normalization). -/
def goodConfig (c : TankConfig) : Prop :=
  2 ≤ c.n_nodes ∧ 0 < c.height ∧ 0 < c.volume ∧ 0 < c.rho ∧ 0 < c.cp ∧
  0 < c.dt ∧ 1 ≤ c.n_steps ∧
  (0 ≤ c.charge_inlet ∧ c.charge_inlet < (c.n_nodes : Int)) ∧
  (0 ≤ (normConfig c).discharge_outlet ∧
    (normConfig c).discharge_outlet < (c.n_nodes : Int))

lemma validate_ok_iff (c c' : TankConfig) :
    c.validate = .ok c' ↔ goodConfig c ∧ c' = normConfig c := by
  constructor
  · intro h
    unfold TankConfig.validate at h
    split_ifs at h with h1 h2 h3 h4 h5 h6 h7 h8
    rw [not_or] at h4
    refine ⟨⟨by omega, not_le.mp h2, not_le.mp h3, not_le.mp h4.1, not_le.mp h4.2,
      not_le.mp h5, by omega, h7, h8⟩, ?_⟩
    exact (Except.ok.injEq _ _).mp h.symm
  · rintro ⟨⟨g1, g2, g3, g4, g5, g6, g7, g8, g9⟩, rfl⟩
    have e1 : ¬ c.n_nodes < 2 := by omega
    have e2 : ¬ c.height ≤ 0 := not_le.mpr g2
    have e3 : ¬ c.volume ≤ 0 := not_le.mpr g3
    have e4 : ¬ (c.rho ≤ 0 ∨ c.cp ≤ 0) := by
      rw [not_or]; exact ⟨not_le.mpr g4, not_le.mpr g5⟩
    have e5 : ¬ c.dt ≤ 0 := not_le.mpr g6
    have e6 : ¬ c.n_steps < 1 := by omega
    unfold TankConfig.validate
    rw [if_neg e1, if_neg e2, if_neg e3, if_neg e4, if_neg e5, if_neg e6,
      if_neg (not_not.mpr g8), if_neg (not_not.mpr g9)]

lemma validate_error_iff (c : TankConfig) :
    (∃ e, c.validate = .error e) ↔ ¬ goodConfig c := by
  constructor
  · rintro ⟨e, he⟩ hg
    have h2 := (validate_ok_iff c (normConfig c)).mpr ⟨hg, rfl⟩
    rw [he] at h2
    cases h2
  · intro hg
    cases h : c.validate with
    | error e => exact ⟨e, rfl⟩
    | ok c' => exact absurd ((validate_ok_iff c c').mp h).1 hg

lemma normConfig_n_nodes (c : TankConfig) : (normConfig c).n_nodes = c.n_nodes := by
  unfold normConfig; split <;> rfl

lemma normConfig_height (c : TankConfig) : (normConfig c).height = c.height := by
  unfold normConfig; split <;> rfl

lemma normConfig_volume (c : TankConfig) : (normConfig c).volume = c.volume := by
  unfold normConfig; split <;> rfl

lemma normConfig_rho (c : TankConfig) : (normConfig c).rho = c.rho := by
  unfold normConfig; split <;> rfl

lemma normConfig_cp (c : TankConfig) : (normConfig c).cp = c.cp := by
  unfold normConfig; split <;> rfl

lemma normConfig_ua_loss (c : TankConfig) : (normConfig c).ua_loss = c.ua_loss := by
  unfold normConfig; split <;> rfl

lemma normConfig_k_cond (c : TankConfig) : (normConfig c).k_cond = c.k_cond := by
  unfold normConfig; split <;> rfl

lemma normConfig_dt (c : TankConfig) : (normConfig c).dt = c.dt := by
  unfold normConfig; split <;> rfl

lemma normConfig_n_steps (c : TankConfig) : (normConfig c).n_steps = c.n_steps := by
  unfold normConfig; split <;> rfl

lemma normConfig_charge_inlet (c : TankConfig) :
    (normConfig c).charge_inlet = c.charge_inlet := by
  unfold normConfig; split <;> rfl

/-- A configuration that already passed validation passes again without
change: the sentinel is gone, so normalization is the identity. -/
lemma goodConfig_norm {c : TankConfig} (h : goodConfig c) :
    goodConfig (normConfig c) ∧ normConfig (normConfig c) = normConfig c := by
  obtain ⟨h1, h2, h3, h4, h5, h6, h7, h8, h9⟩ := h
  have hne : (normConfig c).discharge_outlet ≠ -1 := by omega
  have hfix : normConfig (normConfig c) = normConfig c := by
    unfold normConfig
    split_ifs <;> simp_all [normConfig]
  refine ⟨?_, hfix⟩
  refine ⟨?_, ?_, ?_, ?_, ?_, ?_, ?_, ?_, ?_⟩ <;>
    simp [normConfig_n_nodes, normConfig_height, normConfig_volume, normConfig_rho,
      normConfig_cp, normConfig_dt, normConfig_n_steps, normConfig_charge_inlet,
      hfix, *]

/-- A successful validation yields a configuration that itself
satisfies every validation condition. -/
lemma good_of_validate {cfg c : TankConfig} (hv : cfg.validate = .ok c) :
    goodConfig c ∧ c = normConfig cfg := by
  obtain ⟨hg, hc⟩ := (validate_ok_iff _ _).mp hv
  refine ⟨?_, hc⟩
  rw [hc]
  exact (goodConfig_norm hg).1

/-- Positivity of the per-node mass for a good configuration. -/
lemma mass_node_pos {c : TankConfig} (h2 : 2 ≤ c.n_nodes) (hh : 0 < c.height)
    (hv : 0 < c.volume) (hr : 0 < c.rho) : 0 < c.params.mass_node := by
  unfold TankConfig.params
  dsimp only
  have hn : (0 : ℚ) < (c.n_nodes : ℚ) := by exact_mod_cast (by omega : 0 < c.n_nodes)
  have h1 : (0 : ℚ) < c.volume / c.height := div_pos hv hh
  have h2 : (0 : ℚ) < c.height / (c.n_nodes : ℚ) := div_pos hh hn
  exact mul_pos hr (mul_pos h1 h2)

/-! ### Length preservation through one step -/

lemma length_mixInto (f : ℚ) (dst src : Nat) (T : List ℚ) :
    (mixInto f dst src T).length = T.length := by
  unfold mixInto; exact List.length_set ..

lemma length_mixFold (f : ℚ) (a b : Nat → Nat) (idxs : List Nat) (T : List ℚ) :
    (idxs.foldl (fun T i => mixInto f (a i) (b i) T) T).length = T.length := by
  induction idxs generalizing T with
  | nil => rfl
  | cons i l ih => rw [List.foldl_cons, ih, length_mixInto]

lemma length_lossStep (ua dt mass cp Tamb : ℚ) (T : List ℚ) :
    (lossStep ua dt mass cp Tamb T).length = T.length := by
  unfold lossStep; exact List.length_map ..

lemma length_condStep (G dt mass cp : ℚ) (n : Nat) (T : List ℚ) :
    (condStep G dt mass cp n T).length = n := by
  unfold condStep; rw [List.length_map, List.length_range]

lemma length_chargeAdvect (i_in n : Nat) (alpha frac Tin : ℚ) (T : List ℚ) :
    (chargeAdvect i_in n alpha frac Tin T).length = T.length := by
  unfold chargeAdvect
  split
  · rw [length_mixFold frac (fun i => i + 1) (fun i => i), List.length_set]
  · exact List.length_set ..

lemma length_dischargeAdvect (i_out n : Nat) (frac : ℚ) (T : List ℚ) :
    (dischargeAdvect i_out n frac T).length = T.length := by
  unfold dischargeAdvect
  split
  · rw [length_mixFold frac (fun i => i) (fun i => i - 1), length_mixInto]
  · split
    · rw [length_mixFold frac (fun i => i) (fun i => i + 1), length_mixInto]
    · rfl

lemma length_advect (p : StepParams) (mf Tin : ℚ) (T : List ℚ) :
    (advect p mf Tin T).length = T.length := by
  unfold advect
  split
  · exact length_chargeAdvect ..
  · split
    · exact length_dischargeAdvect ..
    · rfl

lemma length_preAdvect (p : StepParams) (Tamb : ℚ) {T : List ℚ}
    (h : T.length = p.n) : (preAdvect p Tamb T).length = p.n := by
  unfold preAdvect
  dsimp only
  split
  · exact length_condStep ..
  · split
    · rw [length_lossStep, h]
    · exact h

lemma length_stepRow (p : StepParams) (Tin Tamb mf : ℚ) {T : List ℚ}
    (h : T.length = p.n) : (stepRow p Tin Tamb mf T).length = p.n := by
  unfold stepRow
  rw [length_advect, length_preAdvect p Tamb h]

lemma length_Trow (p : StepParams) (a b d e : List ℚ) (h : e.length = p.n) :
    ∀ t, (Trow p a b d e t).length = p.n := by
  intro t
  induction t with
  | zero => exact h
  | succ t ih => exact length_stepRow p _ _ _ ih

/-! ### Claim C8 -/

/-- C8: `TankConfig.validate` fails (raises `InvalidConfiguration`) if
and only if `n_nodes < 2`, `height ≤ 0`, `volume ≤ 0`, `rho ≤ 0`,
`cp ≤ 0`, `dt ≤ 0`, `n_steps < 1`, `charge_inlet` outside
`[0, n_nodes)`, or the sentinel-normalized `discharge_outlet` outside
`[0, n_nodes)`; on success the only mutation is the sentinel
normalization (returned as the updated record), and a second call to
`validate` is the identity on the result. -/
theorem c8_validate_characterization (c : TankConfig) :
    ((∃ e, c.validate = .error e) ↔
      (c.n_nodes < 2 ∨ c.height ≤ 0 ∨ c.volume ≤ 0 ∨ c.rho ≤ 0 ∨ c.cp ≤ 0 ∨
       c.dt ≤ 0 ∨ c.n_steps < 1 ∨
       ¬ (0 ≤ c.charge_inlet ∧ c.charge_inlet < (c.n_nodes : Int)) ∨
       ¬ (0 ≤ (normConfig c).discharge_outlet ∧
          (normConfig c).discharge_outlet < (c.n_nodes : Int)))) ∧
    (∀ c', c.validate = .ok c' → c' = normConfig c ∧ c'.validate = .ok c') := by
  have hiff : ¬ (c.n_nodes < 2 ∨ c.height ≤ 0 ∨ c.volume ≤ 0 ∨ c.rho ≤ 0 ∨
      c.cp ≤ 0 ∨ c.dt ≤ 0 ∨ c.n_steps < 1 ∨
      ¬ (0 ≤ c.charge_inlet ∧ c.charge_inlet < (c.n_nodes : Int)) ∨
      ¬ (0 ≤ (normConfig c).discharge_outlet ∧
         (normConfig c).discharge_outlet < (c.n_nodes : Int))) ↔ goodConfig c := by
    simp only [goodConfig, not_or, not_lt, not_le, not_not]
  constructor
  · rw [validate_error_iff, ← hiff, not_not]
  · intro c' h
    obtain ⟨hg, hc⟩ := (validate_ok_iff c c').mp h
    subst hc
    exact ⟨rfl, (validate_ok_iff _ _).mpr
      ⟨(goodConfig_norm hg).1, (goodConfig_norm hg).2.symm⟩⟩

/-- Witness for C8 at the concrete configuration `cfgW`: validation
succeeds, performs exactly the sentinel normalization, and is
idempotent on the result. -/
theorem c8_witness :
    cfgW.validate = .ok (normConfig cfgW) ∧
    normConfig cfgW = { cfgW with discharge_outlet := 3 } ∧
    (normConfig cfgW).validate = .ok (normConfig cfgW) := by
  have hv : cfgW.validate = .ok (normConfig cfgW) := by decide
  obtain ⟨heq, hidem⟩ := (c8_validate_characterization cfgW).2 (normConfig cfgW) hv
  exact ⟨hv, by decide, hidem⟩

/-! ### Structure of `simulate_stratified_tank` -/

lemma simulate_eq_ok {cfg c : TankConfig} (h : cfg.validate = .ok c)
    {a b d e : List ℚ} (ha : a.length = c.n_steps) (hb : b.length = c.n_steps)
    (hd : d.length = c.n_steps) (he : e.length = c.n_nodes) :
    simulate_stratified_tank cfg a b d e = .ok (mkResult c a b d e) := by
  unfold simulate_stratified_tank
  rw [h]
  simp [ha, hb, hd, he]

lemma simulate_dim_error {cfg c : TankConfig} (h : cfg.validate = .ok c)
    {a b d e : List ℚ}
    (hmis : a.length ≠ c.n_steps ∨ b.length ≠ c.n_steps ∨ d.length ≠ c.n_steps ∨
      e.length ≠ c.n_nodes) :
    ∃ msg, simulate_stratified_tank cfg a b d e = .error (.dimensionMismatch msg) := by
  unfold simulate_stratified_tank
  rw [h]
  dsimp only
  split_ifs with h1 h2 h3 h4
  · exact ⟨_, rfl⟩
  · exact ⟨_, rfl⟩
  · exact ⟨_, rfl⟩
  · exact ⟨_, rfl⟩
  · tauto

/-! ### Claim C5 -/

/-- C5: for a configuration that passes validation, `simulate` fails
with `DimensionMismatch` exactly when one of the three per-step series
has length other than `n_steps` or the initial profile has length other
than `n_nodes`; and the failure is atomic — a successful return always
carries the complete history (`n_steps + 1` rows) and the complete loss
series (`n_steps` entries), never a partial one. -/
theorem c5_dimension_mismatch_iff (cfg c : TankConfig) (a b d e : List ℚ)
    (hv : cfg.validate = .ok c) :
    ((∃ msg, simulate_stratified_tank cfg a b d e = .error (.dimensionMismatch msg)) ↔
      (a.length ≠ cfg.n_steps ∨ b.length ≠ cfg.n_steps ∨ d.length ≠ cfg.n_steps ∨
        e.length ≠ cfg.n_nodes)) ∧
    (∀ r, simulate_stratified_tank cfg a b d e = .ok r →
      r.T.length = cfg.n_steps + 1 ∧ r.Q_loss.length = cfg.n_steps) := by
  obtain ⟨-, hc⟩ := (validate_ok_iff cfg c).mp hv
  have hns : c.n_steps = cfg.n_steps := by rw [hc, normConfig_n_steps]
  have hnn : c.n_nodes = cfg.n_nodes := by rw [hc, normConfig_n_nodes]
  rw [← hns, ← hnn]
  constructor
  · constructor
    · rintro ⟨msg, hmsg⟩
      by_contra hlen
      push_neg at hlen
      obtain ⟨ha, hb, hd, he⟩ := hlen
      rw [simulate_eq_ok hv ha hb hd he] at hmsg
      cases hmsg
    · exact simulate_dim_error hv
  · intro r hr
    by_cases ha : a.length = c.n_steps
    · by_cases hb : b.length = c.n_steps
      · by_cases hd : d.length = c.n_steps
        · by_cases he : e.length = c.n_nodes
          · rw [simulate_eq_ok hv ha hb hd he] at hr
            cases hr
            constructor
            · unfold mkResult
              rw [List.length_map, List.length_range]
            · unfold mkResult
              rw [List.length_map, List.length_range]
          · obtain ⟨m, hm⟩ := simulate_dim_error hv (Or.inr (Or.inr (Or.inr he)))
            rw [hm] at hr; cases hr
        · obtain ⟨m, hm⟩ := simulate_dim_error hv (Or.inr (Or.inr (Or.inl hd)))
          rw [hm] at hr; cases hr
      · obtain ⟨m, hm⟩ := simulate_dim_error hv (Or.inr (Or.inl hb))
        rw [hm] at hr; cases hr
    · obtain ⟨m, hm⟩ := simulate_dim_error hv (Or.inl ha)
      rw [hm] at hr; cases hr

/-- Witness for C5 at concrete inputs: a short `Tin_charge` series
fails with `DimensionMismatch`, and a well-sized run returns the full
history and loss series. -/
theorem c5_witness :
    ((∃ msg, simulate_stratified_tank cfgU [] [0] [0] [0, 0] =
        .error (.dimensionMismatch msg)) ∧
      (∀ r, simulate_stratified_tank cfgU [1] [0] [0] [0, 0] = .ok r →
        r.T.length = 2 ∧ r.Q_loss.length = 1)) := by
  refine ⟨?_, ?_⟩
  · exact (c5_dimension_mismatch_iff cfgU (normConfig cfgU) [] [0] [0] [0, 0]
      (by decide)).1.mpr (by decide)
  · exact (c5_dimension_mismatch_iff cfgU (normConfig cfgU) [1] [0] [0] [0, 0]
      (by decide)).2

/-! ### Parameter facts and the idle step -/

lemma params_ua_node_zero {c : TankConfig} (h : c.ua_loss ≤ 0) :
    c.params.ua_node = 0 := by
  unfold TankConfig.params
  dsimp only
  rw [if_neg (not_lt.mpr h)]

lemma params_G_cond_zero {c : TankConfig} (h : c.k_cond ≤ 0) :
    c.params.G_cond = 0 := by
  unfold TankConfig.params
  dsimp only
  rw [if_neg (not_lt.mpr h)]

lemma preAdvect_skip {p : StepParams} (hua : ¬ p.ua_node > 0)
    (hG : ¬ p.G_cond > 0) (Tamb : ℚ) (T : List ℚ) : preAdvect p Tamb T = T := by
  unfold preAdvect
  simp [hua, hG]

lemma advect_idle (p : StepParams) (Tin : ℚ) (T : List ℚ) :
    advect p 0 Tin T = T := by
  unfold advect
  simp

lemma stepRow_idle {p : StepParams} (hua : ¬ p.ua_node > 0)
    (hG : ¬ p.G_cond > 0) (Tin Tamb : ℚ) (T : List ℚ) :
    stepRow p Tin Tamb 0 T = T := by
  unfold stepRow
  rw [preAdvect_skip hua hG, advect_idle]

/-! ### Claim C4 -/

/-- C4: with `ua_loss = 0`, `k_cond = 0` and an all-zero mass-flow
series, every row of the returned temperature field equals the initial
profile exactly. -/
theorem c4_idle_invariance (cfg c : TankConfig) (a b d e : List ℚ)
    (hv : cfg.validate = .ok c) (hua : cfg.ua_loss = 0) (hk : cfg.k_cond = 0)
    (hb : ∀ x ∈ b, x = 0) :
    ∀ r, simulate_stratified_tank cfg a b d e = .ok r → ∀ row ∈ r.T, row = e := by
  obtain ⟨-, hc⟩ := (validate_ok_iff cfg c).mp hv
  have hual : c.ua_loss = 0 := by rw [hc, normConfig_ua_loss, hua]
  have hkl : c.k_cond = 0 := by rw [hc, normConfig_k_cond, hk]
  have hpu : ¬ c.params.ua_node > 0 := by
    rw [params_ua_node_zero (le_of_eq hual)]; exact lt_irrefl 0
  have hpG : ¬ c.params.G_cond > 0 := by
    rw [params_G_cond_zero (le_of_eq hkl)]; exact lt_irrefl 0
  have hrow : ∀ t, Trow c.params a b d e t = e := by
    intro t
    induction t with
    | zero => rfl
    | succ t ih => rw [Trow, ih, gq_all_zero hb, stepRow_idle hpu hpG]
  intro r hr
  unfold simulate_stratified_tank at hr
  rw [hv] at hr
  dsimp only at hr
  split_ifs at hr
  cases hr
  intro row hmem
  unfold mkResult at hmem
  dsimp only at hmem
  obtain ⟨t, -, rfl⟩ := List.mem_map.mp hmem
  exact hrow t

/-- Witness for C4: a two-node idle run leaves both history rows at the
initial profile. -/
theorem c4_witness :
    simulate_stratified_tank cfgU [5] [0] [7] [1, 2] =
      .ok (mkResult (normConfig cfgU) [5] [0] [7] [1, 2]) ∧
    ∀ row ∈ (mkResult (normConfig cfgU) [5] [0] [7] [1, 2]).T, row = [1, 2] := by
  have hs : simulate_stratified_tank cfgU [5] [0] [7] [1, 2] =
      .ok (mkResult (normConfig cfgU) [5] [0] [7] [1, 2]) := by decide
  exact ⟨hs, c4_idle_invariance cfgU (normConfig cfgU) [5] [0] [7] [1, 2]
    (by decide) (by decide) (by decide) (by decide) _ hs⟩

/-! ### Summation helpers and conduction energy balance -/

lemma sum_map_mul (m : ℚ) (l : List ℚ) :
    (l.map (fun x => m * x)).sum = m * l.sum := by
  induction l with
  | nil => simp
  | cons x xs ih => simp [ih]; ring

lemma sum_map_add_fun (f g : Nat → ℚ) (l : List Nat) :
    (l.map (fun i => f i + g i)).sum = (l.map f).sum + (l.map g).sum := by
  induction l with
  | nil => simp
  | cons x xs ih => simp [ih]; ring

lemma sum_map_mul_right_fun (f : Nat → ℚ) (k : ℚ) (l : List Nat) :
    (l.map (fun i => f i * k)).sum = (l.map f).sum * k := by
  induction l with
  | nil => simp
  | cons x xs ih => simp [ih]; ring

/-- Telescoping sum over `List.range`. -/
lemma teleSum (h : Nat → ℚ) (k : Nat) :
    ((List.range k).map (fun i => h (i + 1) - h i)).sum = h k - h 0 := by
  induction k with
  | zero => simp
  | succ k ih =>
    rw [List.range_succ, List.map_append, List.sum_append, ih]
    simp only [List.map_cons, List.map_nil, List.sum_cons, List.sum_nil]
    ring

/-- Indexed sum of a list of length `n` via `gq`. -/
lemma sum_range_gq (T : List ℚ) :
    ((List.range T.length).map (fun i => gq T i)).sum = T.sum := by
  induction T with
  | nil => simp
  | cons x xs ih =>
    rw [List.length_cons, List.range_succ_eq_map, List.map_cons, List.map_map]
    have hm : ((List.range xs.length).map ((fun i => gq (x :: xs) i) ∘ Nat.succ)) =
        (List.range xs.length).map (fun i => gq xs i) := rfl
    rw [List.sum_cons, hm, ih, List.sum_cons]
    rfl

lemma condL_zero (T : List ℚ) : condL T 0 = 0 := by
  unfold condL
  rw [if_pos rfl]

lemma condL_succ (T : List ℚ) (i : Nat) :
    condL T (i + 1) = gq T i - gq T (i + 1) := by
  unfold condL
  rw [if_neg (by omega : ¬ i + 1 = 0), Nat.add_sub_cancel]

lemma condR_last (T : List ℚ) (m : Nat) : condR T m m = 0 := by
  unfold condR
  rw [if_pos rfl]

lemma condR_ne (T : List ℚ) {m i : Nat} (h : i ≠ m) :
    condR T m i = gq T (i + 1) - gq T i := by
  unfold condR
  rw [if_neg h]

/-- The conduction deltas of one step sum to zero: the stencil only
moves energy between adjacent nodes. -/
lemma condDelta_sum_zero (G dt mass cp : ℚ) {n : Nat} (hn : 2 ≤ n) (T : List ℚ) :
    ((List.range n).map (fun i => condDelta G dt mass cp n T i)).sum = 0 := by
  obtain ⟨m, rfl⟩ : ∃ m, n = m + 1 := ⟨n - 1, by omega⟩
  have hpoint : ∀ i ∈ List.range (m + 1),
      condDelta G dt mass cp (m + 1) T i =
        (condL T i + condR T m i) * (G * dt / (mass * cp)) := by
    intro i hi
    rw [List.mem_range] at hi
    have hm1 : m + 1 - 1 = m := by omega
    unfold condDelta
    rw [hm1]
    by_cases h0 : i = 0
    · subst h0
      rw [if_pos rfl, condL_zero, condR_ne T (by omega : (0 : Nat) ≠ m)]
      ring
    · obtain ⟨j, rfl⟩ : ∃ j, i = j + 1 := ⟨i - 1, by omega⟩
      by_cases h1 : j + 1 = m
      · rw [if_neg h0, if_pos h1, condL_succ, h1, condR_last]
        have h2 : m + 1 - 2 = j := by omega
        rw [h2]
        ring
      · rw [if_neg h0, if_neg h1, condL_succ, condR_ne T h1, Nat.add_sub_cancel]
        ring
  rw [List.map_congr_left hpoint, sum_map_mul_right_fun, sum_map_add_fun]
  have hLsum : ((List.range (m + 1)).map (fun i => condL T i)).sum =
      -(gq T m - gq T 0) := by
    rw [List.range_succ_eq_map, List.map_cons, List.map_map, List.sum_cons]
    have hcong : (List.range m).map ((fun i => condL T i) ∘ Nat.succ) =
        (List.range m).map
          (fun i => (fun j => -(gq T j)) (i + 1) - (fun j => -(gq T j)) i) := by
      apply List.map_congr_left
      intro i hi
      simp only [Function.comp_apply]
      rw [condL_succ]
      ring
    rw [hcong, teleSum (fun j => -(gq T j)) m, condL_zero]
    ring
  have hRsum : ((List.range (m + 1)).map (fun i => condR T m i)).sum =
      gq T m - gq T 0 := by
    rw [List.range_succ, List.map_append, List.sum_append]
    have hcong : (List.range m).map (fun i => condR T m i) =
        (List.range m).map (fun i => gq T (i + 1) - gq T i) := by
      apply List.map_congr_left
      intro i hi
      rw [List.mem_range] at hi
      exact condR_ne T (by omega)
    rw [hcong, teleSum (fun j => gq T j) m]
    simp only [List.map_cons, List.map_nil, List.sum_cons, List.sum_nil, condR_last]
    ring
  rw [hLsum, hRsum]
  ring

/-- One conduction phase preserves the sum of node temperatures. -/
lemma condStep_sum (G dt mass cp : ℚ) {n : Nat} (hn : 2 ≤ n) {T : List ℚ}
    (hT : T.length = n) : (condStep G dt mass cp n T).sum = T.sum := by
  unfold condStep
  rw [sum_map_add_fun (fun i => gq T i) (fun i => condDelta G dt mass cp n T i),
    condDelta_sum_zero G dt mass cp hn T, ← hT, sum_range_gq]
  ring

/-! ### Destructors for a successful simulation -/

lemma simulate_ok_elim {cfg : TankConfig} {a b d e : List ℚ} {r : SimResult}
    (h : simulate_stratified_tank cfg a b d e = .ok r) :
    ∃ c, cfg.validate = .ok c ∧ a.length = c.n_steps ∧ b.length = c.n_steps ∧
      d.length = c.n_steps ∧ e.length = c.n_nodes ∧ r = mkResult c a b d e := by
  unfold simulate_stratified_tank at h
  cases hv : cfg.validate with
  | error msg => rw [hv] at h; cases h
  | ok c =>
    rw [hv] at h
    dsimp only at h
    split_ifs at h with h1 h2 h3 h4
    cases h
    exact ⟨c, rfl, not_ne_iff.mp h1, not_ne_iff.mp h2, not_ne_iff.mp h3,
      not_ne_iff.mp h4, rfl⟩

lemma mkResult_T_getD (c : TankConfig) (a b d e : List ℚ) {t : Nat}
    (h : t < c.n_steps + 1) :
    (mkResult c a b d e).T.getD t [] = Trow c.params a b d e t := by
  unfold mkResult
  dsimp only
  rw [List.getD_eq_getElem?_getD, List.getElem?_map, List.getElem?_range h]
  rfl

lemma mkResult_Q_getD (c : TankConfig) (a b d e : List ℚ) {t : Nat}
    (h : t < c.n_steps) :
    (mkResult c a b d e).Q_loss.getD t 0 =
      qLossRow c.params (gq d t) (Trow c.params a b d e t) := by
  unfold mkResult
  dsimp only
  rw [List.getD_eq_getElem?_getD, List.getElem?_map, List.getElem?_range h]
  rfl

lemma params_G_cond_pos {c : TankConfig} (hk : 0 < c.k_cond) (hh : 0 < c.height)
    (hvv : 0 < c.volume) (hn : 2 ≤ c.n_nodes) : 0 < c.params.G_cond := by
  unfold TankConfig.params
  dsimp only
  rw [if_pos hk]
  have hn0 : (0 : ℚ) < (c.n_nodes : ℚ) := by exact_mod_cast (by omega : 0 < c.n_nodes)
  exact div_pos (mul_pos hk (div_pos hvv hh)) (div_pos hh hn0)

/-! ### Claim C3 -/

/-- C3: with `ua_loss = 0`, `k_cond > 0` and an all-zero mass-flow
series, every step conserves the total thermal energy
`Σ mass_node * T[node]` exactly (over exact rational arithmetic). -/
theorem c3_conduction_energy (cfg c : TankConfig) (a b d e : List ℚ) (r : SimResult)
    (hv : cfg.validate = .ok c) (hua : cfg.ua_loss = 0) (hk : 0 < cfg.k_cond)
    (hb : ∀ x ∈ b, x = 0)
    (hr : simulate_stratified_tank cfg a b d e = .ok r) :
    ∀ t < cfg.n_steps,
      ((r.T.getD (t + 1) []).map (fun x => c.params.mass_node * x)).sum =
      ((r.T.getD t []).map (fun x => c.params.mass_node * x)).sum := by
  obtain ⟨c2, hv2, ha2, hb2, hd2, he2, hres⟩ := simulate_ok_elim hr
  rw [hv] at hv2
  cases hv2
  obtain ⟨hg, hc⟩ := (validate_ok_iff cfg c).mp hv
  obtain ⟨hn2, hh, hvol, hrho, hcp, hdt, hns, -, -⟩ := hg
  have hcn : c.n_nodes = cfg.n_nodes := by rw [hc, normConfig_n_nodes]
  have hcs : c.n_steps = cfg.n_steps := by rw [hc, normConfig_n_steps]
  have hual : c.ua_loss = 0 := by rw [hc, normConfig_ua_loss, hua]
  have hpu : ¬ c.params.ua_node > 0 := by
    rw [params_ua_node_zero (le_of_eq hual)]
    exact lt_irrefl 0
  have hpG : 0 < c.params.G_cond := by
    apply params_G_cond_pos _ _ _ _
    · rw [hc, normConfig_k_cond]; exact hk
    · rw [hc, normConfig_height]; exact hh
    · rw [hc, normConfig_volume]; exact hvol
    · rw [hc, normConfig_n_nodes]; exact hn2
  have hpn : c.params.n = c.n_nodes := rfl
  have hlen : ∀ t, (Trow c.params a b d e t).length = c.params.n :=
    length_Trow c.params a b d e (by rw [he2, hpn])
  have hstep : ∀ t, Trow c.params a b d e (t + 1) =
      condStep c.params.G_cond c.params.dt c.params.mass_node c.params.cp c.params.n
        (Trow c.params a b d e t) := by
    intro t
    rw [Trow, gq_all_zero hb]
    unfold stepRow
    rw [advect_idle]
    unfold preAdvect
    dsimp only
    rw [if_neg hpu, if_pos hpG]
  intro t ht
  have hT1 : r.T.getD (t + 1) [] = Trow c.params a b d e (t + 1) := by
    rw [hres]
    exact mkResult_T_getD c a b d e (by omega)
  have hT0 : r.T.getD t [] = Trow c.params a b d e t := by
    rw [hres]
    exact mkResult_T_getD c a b d e (by omega)
  rw [hT1, hT0, hstep t, sum_map_mul, sum_map_mul,
    condStep_sum c.params.G_cond c.params.dt c.params.mass_node c.params.cp
      (by rw [hpn, hcn]; exact hn2) (hlen t)]

/-- Witness for C3: a three-node conduction-only step leaves the total
energy of the profile `[1, 2, 4]` unchanged. -/
theorem c3_witness :
    (((mkResult (normConfig cfgC) [0] [0] [0] [1, 2, 4]).T.getD 1 []).map
        (fun x => (normConfig cfgC).params.mass_node * x)).sum =
      (((mkResult (normConfig cfgC) [0] [0] [0] [1, 2, 4]).T.getD 0 []).map
        (fun x => (normConfig cfgC).params.mass_node * x)).sum := by
  have hr : simulate_stratified_tank cfgC [0] [0] [0] [1, 2, 4] =
      .ok (mkResult (normConfig cfgC) [0] [0] [0] [1, 2, 4]) := by
    with_unfolding_all rfl
  exact c3_conduction_energy cfgC (normConfig cfgC) [0] [0] [0] [1, 2, 4] _
    (by decide) (by decide) (by decide) (by decide) hr 0 (by decide)

/-! ### Claim C6 -/

lemma params_ua_node_pos {c : TankConfig} (h : 0 < c.ua_loss) (hn : 2 ≤ c.n_nodes) :
    0 < c.params.ua_node := by
  unfold TankConfig.params
  dsimp only
  rw [if_pos h]
  have hn0 : (0 : ℚ) < (c.n_nodes : ℚ) := by exact_mod_cast (by omega : 0 < c.n_nodes)
  exact div_pos h hn0

lemma params_ua_node_eq {c : TankConfig} (h : 0 < c.ua_loss) :
    c.params.ua_node = c.ua_loss / (c.n_nodes : ℚ) := by
  unfold TankConfig.params
  dsimp only
  rw [if_pos h]

/-- C6: the recorded loss series has length `n_steps`; with
`ua_loss > 0` each entry is `Σ ua_node*(T[t][i] - T_amb[t])` computed
from the stored pre-update row `t`; with `ua_loss = 0` the loss phase is
skipped and the entry is `0`. -/
theorem c6_loss_power (cfg c : TankConfig) (a b d e : List ℚ) (r : SimResult)
    (hv : cfg.validate = .ok c)
    (hr : simulate_stratified_tank cfg a b d e = .ok r) :
    r.Q_loss.length = cfg.n_steps ∧
    ∀ t < cfg.n_steps,
      (0 < cfg.ua_loss → r.Q_loss.getD t 0 =
        ((r.T.getD t []).map
          (fun x => cfg.ua_loss / (cfg.n_nodes : ℚ) * (x - gq d t))).sum) ∧
      (cfg.ua_loss = 0 → r.Q_loss.getD t 0 = 0) := by
  obtain ⟨c2, hv2, ha2, hb2, hd2, he2, hres⟩ := simulate_ok_elim hr
  rw [hv] at hv2
  cases hv2
  obtain ⟨hg, hc⟩ := (validate_ok_iff cfg c).mp hv
  have hcs : c.n_steps = cfg.n_steps := by rw [hc, normConfig_n_steps]
  have hcn : c.n_nodes = cfg.n_nodes := by rw [hc, normConfig_n_nodes]
  have hcu : c.ua_loss = cfg.ua_loss := by rw [hc, normConfig_ua_loss]
  constructor
  · rw [hres]
    unfold mkResult
    dsimp only
    rw [List.length_map, List.length_range, hcs]
  · intro t ht
    have hQ : r.Q_loss.getD t 0 =
        qLossRow c.params (gq d t) (Trow c.params a b d e t) := by
      rw [hres]
      exact mkResult_Q_getD c a b d e (by omega)
    have hT : r.T.getD t [] = Trow c.params a b d e t := by
      rw [hres]
      exact mkResult_T_getD c a b d e (by omega)
    constructor
    · intro hua
      have hua' : 0 < c.ua_loss := by rw [hcu]; exact hua
      rw [hQ, hT]
      unfold qLossRow
      rw [if_pos (params_ua_node_pos hua' (by rw [hcn]; exact hg.1)),
        params_ua_node_eq hua', hcu, hcn]
    · intro hua
      have hua' : c.ua_loss ≤ 0 := by rw [hcu, hua]
      rw [hQ]
      unfold qLossRow
      rw [if_neg (by rw [params_ua_node_zero hua']; exact lt_irrefl 0)]

/-- Witness for C6 at `cfgL` (positive `ua_loss`): the first loss-series
entry equals the recorded pre-update sum. -/
theorem c6_witness :
    (mkResult (normConfig cfgL) [0] [0] [1] [2, 4]).Q_loss.getD 0 0 =
      (((mkResult (normConfig cfgL) [0] [0] [1] [2, 4]).T.getD 0 []).map
        (fun x => cfgL.ua_loss / (cfgL.n_nodes : ℚ) * (x - gq [1] 0))).sum := by
  have hr : simulate_stratified_tank cfgL [0] [0] [1] [2, 4] =
      .ok (mkResult (normConfig cfgL) [0] [0] [1] [2, 4]) := by
    with_unfolding_all rfl
  exact ((c6_loss_power cfgL (normConfig cfgL) [0] [0] [1] [2, 4] _
    (by decide) hr).2 0 (by decide)).1 (by norm_num [cfgL, cfgU])

/-! ### Claim C2 -/

/-- The source's charging loop (a `foldl` over `range'`) is the
sequential recurrence the spec describes. -/
lemma chargeAdvect_eq_claim (i_in n : Nat) (alpha frac Tin : ℚ) (T : List ℚ) :
    chargeAdvect i_in n alpha frac Tin T = chargePhaseClaim i_in n alpha frac Tin T := by
  unfold chargeAdvect chargePhaseClaim
  dsimp only
  split
  · rw [foldl_range'_eq_seqUp]
    rfl
  · rfl

/-- C2: on a charging step (`m_flow[t] > 0`) the advection phase first
mixes the inlet node with `Tin_charge[t]` using
`alpha = m*dt/(mass_node + m*dt)`, then — only when the inlet is not
the top node — runs the sequential recurrence
`T[i+1] ← (1-frac)*T[i+1] + frac*T[i]` for `i = i_in, …, n_nodes-2` in
increasing order with `frac = min(1, m*dt/mass_node)`, each step reading
the just-updated `T[i]`; with `i_in = n_nodes-1` no propagation occurs. -/
theorem c2_charging_phase (cfg c : TankConfig) (a b d e : List ℚ) (t : Nat)
    (hv : cfg.validate = .ok c) (hmf : 0 < gq b t) :
    Trow c.params a b d e (t + 1) =
      chargePhaseClaim cfg.charge_inlet.toNat cfg.n_nodes
        ((gq b t * cfg.dt) / (c.params.mass_node + gq b t * cfg.dt))
        (min 1 ((gq b t * cfg.dt) / c.params.mass_node))
        (gq a t)
        (preAdvect c.params (gq d t) (Trow c.params a b d e t)) := by
  obtain ⟨-, hc⟩ := (validate_ok_iff cfg c).mp hv
  have hin : c.charge_inlet = cfg.charge_inlet := by rw [hc, normConfig_charge_inlet]
  have hn : c.n_nodes = cfg.n_nodes := by rw [hc, normConfig_n_nodes]
  have hdt : c.dt = cfg.dt := by rw [hc, normConfig_dt]
  rw [Trow]
  unfold stepRow advect
  rw [if_pos hmf, chargeAdvect_eq_claim]
  have h1 : c.params.i_in = cfg.charge_inlet.toNat := by rw [← hin]; rfl
  have h2 : c.params.n = cfg.n_nodes := by rw [← hn]; rfl
  have h3 : c.params.dt = cfg.dt := by rw [← hdt]; rfl
  rw [h1, h2, h3]

/-- Witness for C2: one charging step of `cfgU` from a cold uniform
profile matches the spec-side recurrence. -/
theorem c2_witness :
    Trow (normConfig cfgU).params [1] [1] [0] [0, 0] 1 =
      chargePhaseClaim cfgU.charge_inlet.toNat cfgU.n_nodes
        ((gq [1] 0 * cfgU.dt) / ((normConfig cfgU).params.mass_node + gq [1] 0 * cfgU.dt))
        (min 1 ((gq [1] 0 * cfgU.dt) / (normConfig cfgU).params.mass_node))
        (gq [1] 0)
        (preAdvect (normConfig cfgU).params (gq [0] 0)
          (Trow (normConfig cfgU).params [1] [1] [0] [0, 0] 0)) :=
  c2_charging_phase cfgU (normConfig cfgU) [1] [1] [0] [0, 0] 0 (by decide) (by decide)

/-! ### Claim C1 -/

/-- C1 counterexample: in `cfgB` (three nodes, bottom outlet) with
`m_flow[0] = -1/6` the per-step fraction is `1/2`; the run's advection
phase produces row `[3/4, 1, 0]` — node `0` is mixed twice (once by the
dedicated outlet update of source line 198, once as `i = 0` of the loop
of lines 199-200) — whereas the claimed phase (the bare loop
`T[i] ← (1-frac)*T[i] + frac*T[i+1]` for `i = 0 … n_nodes-3`, each node
mixed at most once) yields `[1/2, 1, 0]`. -/
theorem c1_counterexample :
    (simulate_stratified_tank cfgB [0] [-1/6] [0] [0, 1, 0]).map
        (fun r => r.T.getD 1 []) = .ok [3/4, 1, 0] ∧
    dischargeBottomClaim 3 (1/2) [0, 1, 0] = [1/2, 1, 0] ∧
    ((3 : ℚ)/4) ≠ 1/2 := by
  refine ⟨?_, ?_, by norm_num⟩
  · with_unfolding_all rfl
  · with_unfolding_all rfl

/-- The source's bottom-outlet loop (a `foldl` over `range`) equals the
claimed sequential recurrence. -/
lemma dischargeBottom_loop_eq_claim (n : Nat) (frac : ℚ) (T : List ℚ) :
    (List.range (n - 2)).foldl (fun T i => mixInto frac i (i + 1) T) T =
      dischargeBottomClaim n frac T := by
  unfold dischargeBottomClaim
  rw [foldl_range_eq_seqUp]
  rfl

/-- C1 amended: on a discharging step with the outlet at the bottom the
advection phase is the dedicated update
`T[0] ← (1-frac)*T[0] + frac*T[1]` followed by the sequential
recurrence `T[i] ← (1-frac)*T[i] + frac*T[i+1]` for `i = 0 … n_nodes-3`
— so node `0` is mixed twice whenever `n_nodes ≥ 3` (it is the target
of both the dedicated update and the loop's first iteration), not at
most once. -/
theorem c1_amended_bottom_outlet (cfg c : TankConfig) (a b d e : List ℚ) (t : Nat)
    (hv : cfg.validate = .ok c) (hmf : gq b t < 0) (hout : c.discharge_outlet = 0) :
    Trow c.params a b d e (t + 1) =
      dischargeBottomClaim cfg.n_nodes
        (min 1 ((|gq b t| * cfg.dt) / c.params.mass_node))
        (mixInto (min 1 ((|gq b t| * cfg.dt) / c.params.mass_node)) 0 1
          (preAdvect c.params (gq d t) (Trow c.params a b d e t))) := by
  obtain ⟨hg, hc⟩ := (validate_ok_iff cfg c).mp hv
  have hn : c.n_nodes = cfg.n_nodes := by rw [hc, normConfig_n_nodes]
  have hdt : c.dt = cfg.dt := by rw [hc, normConfig_dt]
  have hn2 : 2 ≤ cfg.n_nodes := hg.1
  rw [Trow]
  unfold stepRow advect
  rw [if_neg (not_lt.mpr hmf.le), if_pos hmf]
  have h1 : c.params.i_out = 0 := by
    show c.discharge_outlet.toNat = 0
    rw [hout]
    rfl
  have h2 : c.params.n = cfg.n_nodes := by rw [← hn]; rfl
  have h3 : c.params.dt = cfg.dt := by rw [← hdt]; rfl
  rw [h1, h2, h3]
  unfold dischargeAdvect
  rw [if_neg (by omega : ¬ (0 : Nat) > 0), if_pos (by omega : cfg.n_nodes > 1),
    dischargeBottom_loop_eq_claim]

/-- Witness for the amended C1 at `cfgB`'s concrete discharge step. -/
theorem c1_amended_witness :
    Trow (normConfig cfgB).params [0] [-1/6] [0] [0, 1, 0] 1 =
      dischargeBottomClaim cfgB.n_nodes
        (min 1 ((|gq [-1/6] 0| * cfgB.dt) / (normConfig cfgB).params.mass_node))
        (mixInto (min 1 ((|gq [-1/6] 0| * cfgB.dt) / (normConfig cfgB).params.mass_node)) 0 1
          (preAdvect (normConfig cfgB).params (gq [0] 0)
            (Trow (normConfig cfgB).params [0] [-1/6] [0] [0, 1, 0] 0))) :=
  c1_amended_bottom_outlet cfgB (normConfig cfgB) [0] [-1/6] [0] [0, 1, 0] 0
    (by decide) (by norm_num [gq, List.getD_cons_zero]) (by decide)

/-! ### Claim C9 -/

lemma validate_set_ua (c : TankConfig) (u : ℚ) :
    TankConfig.validate { c with ua_loss := u } =
      (c.validate).map (fun c2 => { c2 with ua_loss := u }) := by
  unfold TankConfig.validate normConfig
  dsimp only
  by_cases h1 : c.n_nodes < 2
  · simp only [if_pos h1]; rfl
  simp only [if_neg h1]
  by_cases h2 : c.height ≤ 0
  · simp only [if_pos h2]; rfl
  simp only [if_neg h2]
  by_cases h3 : c.volume ≤ 0
  · simp only [if_pos h3]; rfl
  simp only [if_neg h3]
  by_cases h4 : c.rho ≤ 0 ∨ c.cp ≤ 0
  · simp only [if_pos h4]; rfl
  simp only [if_neg h4]
  by_cases h5 : c.dt ≤ 0
  · simp only [if_pos h5]; rfl
  simp only [if_neg h5]
  by_cases h6 : c.n_steps < 1
  · simp only [if_pos h6]; rfl
  simp only [if_neg h6]
  by_cases h7 : ¬ (0 ≤ c.charge_inlet ∧ c.charge_inlet < (c.n_nodes : Int))
  · simp only [if_pos h7]; rfl
  simp only [if_neg h7]
  by_cases hd : c.discharge_outlet = -1
  · simp only [if_pos hd]
    by_cases h8 : ¬ (0 ≤ (c.n_nodes : Int) - 1 ∧ (c.n_nodes : Int) - 1 < (c.n_nodes : Int))
    · simp only [if_pos h8]; rfl
    · simp only [if_neg h8]; rfl
  · simp only [if_neg hd]
    by_cases h8 : ¬ (0 ≤ c.discharge_outlet ∧ c.discharge_outlet < (c.n_nodes : Int))
    · simp only [if_pos h8]; rfl
    · simp only [if_neg h8]; rfl

lemma validate_set_k (c : TankConfig) (k : ℚ) :
    TankConfig.validate { c with k_cond := k } =
      (c.validate).map (fun c2 => { c2 with k_cond := k }) := by
  unfold TankConfig.validate normConfig
  dsimp only
  by_cases h1 : c.n_nodes < 2
  · simp only [if_pos h1]; rfl
  simp only [if_neg h1]
  by_cases h2 : c.height ≤ 0
  · simp only [if_pos h2]; rfl
  simp only [if_neg h2]
  by_cases h3 : c.volume ≤ 0
  · simp only [if_pos h3]; rfl
  simp only [if_neg h3]
  by_cases h4 : c.rho ≤ 0 ∨ c.cp ≤ 0
  · simp only [if_pos h4]; rfl
  simp only [if_neg h4]
  by_cases h5 : c.dt ≤ 0
  · simp only [if_pos h5]; rfl
  simp only [if_neg h5]
  by_cases h6 : c.n_steps < 1
  · simp only [if_pos h6]; rfl
  simp only [if_neg h6]
  by_cases h7 : ¬ (0 ≤ c.charge_inlet ∧ c.charge_inlet < (c.n_nodes : Int))
  · simp only [if_pos h7]; rfl
  simp only [if_neg h7]
  by_cases hd : c.discharge_outlet = -1
  · simp only [if_pos hd]
    by_cases h8 : ¬ (0 ≤ (c.n_nodes : Int) - 1 ∧ (c.n_nodes : Int) - 1 < (c.n_nodes : Int))
    · simp only [if_pos h8]; rfl
    · simp only [if_neg h8]; rfl
  · simp only [if_neg hd]
    by_cases h8 : ¬ (0 ≤ c.discharge_outlet ∧ c.discharge_outlet < (c.n_nodes : Int))
    · simp only [if_pos h8]; rfl
    · simp only [if_neg h8]; rfl

lemma params_set_ua_zero (c : TankConfig) (hu : c.ua_loss ≤ 0) :
    TankConfig.params { c with ua_loss := 0 } = c.params := by
  unfold TankConfig.params
  dsimp only
  rw [if_neg (lt_irrefl 0), if_neg (not_lt.mpr hu)]

lemma params_set_k_zero (c : TankConfig) (hk : c.k_cond ≤ 0) :
    TankConfig.params { c with k_cond := 0 } = c.params := by
  unfold TankConfig.params
  dsimp only
  rw [if_neg (lt_irrefl 0), if_neg (not_lt.mpr hk)]

lemma mkResult_congr_params {c1 c2 : TankConfig} (h : c1.params = c2.params)
    (hs : c1.n_steps = c2.n_steps) (hn : c1.n_nodes = c2.n_nodes)
    (a b d e : List ℚ) : mkResult c1 a b d e = mkResult c2 a b d e := by
  unfold mkResult
  rw [h, hs, hn]

lemma simulate_set_ua (cfg : TankConfig) (hu : cfg.ua_loss ≤ 0) (a b d e : List ℚ) :
    simulate_stratified_tank { cfg with ua_loss := 0 } a b d e =
      simulate_stratified_tank cfg a b d e := by
  unfold simulate_stratified_tank
  rw [validate_set_ua cfg 0]
  cases hv : cfg.validate with
  | error msg => rfl
  | ok c =>
    obtain ⟨-, hc⟩ := (validate_ok_iff cfg c).mp hv
    have hcu : c.ua_loss ≤ 0 := by rw [hc, normConfig_ua_loss]; exact hu
    dsimp only [Except.map]
    split_ifs <;> try rfl
    rw [mkResult_congr_params (params_set_ua_zero c hcu) rfl rfl]

lemma simulate_set_k (cfg : TankConfig) (hk : cfg.k_cond ≤ 0) (a b d e : List ℚ) :
    simulate_stratified_tank { cfg with k_cond := 0 } a b d e =
      simulate_stratified_tank cfg a b d e := by
  unfold simulate_stratified_tank
  rw [validate_set_k cfg 0]
  cases hv : cfg.validate with
  | error msg => rfl
  | ok c =>
    obtain ⟨-, hc⟩ := (validate_ok_iff cfg c).mp hv
    have hck : c.k_cond ≤ 0 := by rw [hc, normConfig_k_cond]; exact hk
    dsimp only [Except.map]
    split_ifs <;> try rfl
    rw [mkResult_congr_params (params_set_k_zero c hck) rfl rfl]

/-- C9: a strictly negative `ua_loss` and/or `k_cond` passes `validate`
exactly as the zero-coefficient configuration does, the whole simulation
output is identical to the run with the negative field replaced by `0`
(`ua_node` and `G_cond` are forced to `0`, the loss and conduction
phases are skipped), and under a negative `ua_loss` the loss series is
all zeros. -/
theorem c9_negative_coefficients (cfg : TankConfig) (a b d e : List ℚ) :
    (cfg.ua_loss < 0 →
      ((∃ c, cfg.validate = .ok c) ↔
        (∃ c, TankConfig.validate { cfg with ua_loss := 0 } = .ok c)) ∧
      simulate_stratified_tank cfg a b d e =
        simulate_stratified_tank { cfg with ua_loss := 0 } a b d e ∧
      (∀ r, simulate_stratified_tank cfg a b d e = .ok r → ∀ q ∈ r.Q_loss, q = 0)) ∧
    (cfg.k_cond < 0 →
      ((∃ c, cfg.validate = .ok c) ↔
        (∃ c, TankConfig.validate { cfg with k_cond := 0 } = .ok c)) ∧
      simulate_stratified_tank cfg a b d e =
        simulate_stratified_tank { cfg with k_cond := 0 } a b d e) := by
  constructor
  · intro hu
    refine ⟨?_, (simulate_set_ua cfg hu.le a b d e).symm, ?_⟩
    · rw [validate_set_ua cfg 0]
      cases hv : cfg.validate with
      | error msg => simp [Except.map]
      | ok c => simp [Except.map]
    · intro r hr q hq
      obtain ⟨c, hv, -, -, -, -, hres⟩ := simulate_ok_elim hr
      obtain ⟨-, hc⟩ := (validate_ok_iff cfg c).mp hv
      have hcu : c.ua_loss ≤ 0 := by rw [hc, normConfig_ua_loss]; exact hu.le
      have hpu : ¬ c.params.ua_node > 0 := by
        rw [params_ua_node_zero hcu]; exact lt_irrefl 0
      rw [hres] at hq
      unfold mkResult at hq
      dsimp only at hq
      obtain ⟨t, -, hqt⟩ := List.mem_map.mp hq
      rw [← hqt]
      unfold qLossRow
      rw [if_neg hpu]
  · intro hk
    refine ⟨?_, (simulate_set_k cfg hk.le a b d e).symm⟩
    rw [validate_set_k cfg 0]
    cases hv : cfg.validate with
    | error msg => simp [Except.map]
    | ok c => simp [Except.map]

/-- Witness for C9 at `cfgN` (`ua_loss = -1`, `k_cond = -2`): the run
equals the zero-coefficient runs and the loss series vanishes. -/
theorem c9_witness :
    (simulate_stratified_tank cfgN [1] [1] [0] [0, 0] =
      simulate_stratified_tank { cfgN with ua_loss := 0 } [1] [1] [0] [0, 0]) ∧
    (simulate_stratified_tank cfgN [1] [1] [0] [0, 0] =
      simulate_stratified_tank { cfgN with k_cond := 0 } [1] [1] [0] [0, 0]) ∧
    (∀ q ∈ (mkResult (normConfig cfgN) [1] [1] [0] [0, 0]).Q_loss, q = 0) := by
  have h := c9_negative_coefficients cfgN [1] [1] [0] [0, 0]
  have h1 := h.1 (by norm_num [cfgN, cfgU])
  have h2 := h.2 (by norm_num [cfgN, cfgU])
  refine ⟨h1.2.1, h2.2, ?_⟩
  apply h1.2.2
  with_unfolding_all rfl

/-! ### Claim C7 -/

/-- C7 counterexample: `cfgL` has `ua_loss = 1 > 0`, which the claim
allows ("no restriction on ua_loss, k_cond, or T_amb").  From the
uniform cool profile `[0, 0]`, constant `m_flow = 1 > 0`, constant
`Tin_charge = 1 > 0` and ambient `100`, one step heats the bottom node
to `34`, far above `Tin_charge = 1` — the bottom node exceeds the inlet
temperature, refuting the claim as stated. -/
theorem c7_counterexample :
    (simulate_stratified_tank cfgL [1] [1] [100] [0, 0]).map
        (fun r => gq (r.T.getD 1 []) 0) = .ok 34 ∧ (1 : ℚ) < 34 := by
  constructor
  · with_unfolding_all rfl
  · norm_num

lemma gq_ge_length (l : List ℚ) {t : Nat} (h : l.length ≤ t) : gq l t = 0 := by
  simp [gq, List.getD_eq_getElem?_getD, List.getElem?_eq_none h]

/-- The charging propagation loop never touches node `0`: every update
targets an index `i + 1 ≥ 1`. -/
lemma gq_zero_chargeFold (f : ℚ) (idxs : List Nat) (T : List ℚ) :
    gq (idxs.foldl (fun T i => mixInto f (i + 1) i T) T) 0 = gq T 0 := by
  induction idxs generalizing T with
  | nil => rfl
  | cons i l ih =>
    rw [List.foldl_cons, ih]
    unfold mixInto
    exact gq_set_ne T _ (by omega)

/-- C7 amended: the monotonicity claim holds once losses and conduction
are switched off (`ua_loss = 0`, `k_cond = 0`): with `charge_inlet = 0`,
constant positive mass flow, constant inlet temperature strictly above
the uniform initial temperature, and an arbitrary ambient series, the
bottom node is non-decreasing in time and never exceeds `Tin_charge`. -/
theorem c7_amended_bottom_monotone (cfg c : TankConfig) (θ Ti m : ℚ) (d : List ℚ)
    (hv : cfg.validate = .ok c) (hua : cfg.ua_loss = 0) (hk : cfg.k_cond = 0)
    (hin : cfg.charge_inlet = 0) (hm : 0 < m) (hθ : θ < Ti) :
    ∀ t,
      gq (Trow c.params (List.replicate cfg.n_steps Ti) (List.replicate cfg.n_steps m) d
            (List.replicate cfg.n_nodes θ) t) 0 ≤
        gq (Trow c.params (List.replicate cfg.n_steps Ti) (List.replicate cfg.n_steps m) d
            (List.replicate cfg.n_nodes θ) (t + 1)) 0 ∧
      gq (Trow c.params (List.replicate cfg.n_steps Ti) (List.replicate cfg.n_steps m) d
            (List.replicate cfg.n_nodes θ) t) 0 ≤ Ti := by
  obtain ⟨hgc, hc⟩ := good_of_validate hv
  obtain ⟨hn2, hh, hvol, hrho, hcp, hdt, hns, -, -⟩ := hgc
  have hcu : c.ua_loss = 0 := by rw [hc, normConfig_ua_loss, hua]
  have hck : c.k_cond = 0 := by rw [hc, normConfig_k_cond, hk]
  have hpu : ¬ c.params.ua_node > 0 := by
    rw [params_ua_node_zero (le_of_eq hcu)]; exact lt_irrefl 0
  have hpG : ¬ c.params.G_cond > 0 := by
    rw [params_G_cond_zero (le_of_eq hck)]; exact lt_irrefl 0
  have hmass : 0 < c.params.mass_node := mass_node_pos hn2 hh hvol hrho
  have hpdt : 0 < c.params.dt := hdt
  have hnn : cfg.n_nodes = c.n_nodes := by rw [hc, normConfig_n_nodes]
  have hnsteps : cfg.n_steps = c.n_steps := by rw [hc, normConfig_n_steps]
  have hiin : c.params.i_in = 0 := by
    show c.charge_inlet.toNat = 0
    rw [hc, normConfig_charge_inlet, hin]
    rfl
  have hlenR : ∀ t, (Trow c.params (List.replicate cfg.n_steps Ti)
      (List.replicate cfg.n_steps m) d (List.replicate cfg.n_nodes θ) t).length =
      c.params.n := by
    apply length_Trow
    rw [List.length_replicate, hnn]
    rfl
  have hβ : ∀ t, ∃ β : ℚ, 0 ≤ β ∧ β ≤ 1 ∧
      gq (Trow c.params (List.replicate cfg.n_steps Ti) (List.replicate cfg.n_steps m) d
        (List.replicate cfg.n_nodes θ) (t + 1)) 0 =
      (1 - β) * gq (Trow c.params (List.replicate cfg.n_steps Ti)
        (List.replicate cfg.n_steps m) d (List.replicate cfg.n_nodes θ) t) 0 + β * Ti := by
    intro t
    by_cases ht : t < cfg.n_steps
    · have hBt : gq (List.replicate cfg.n_steps m) t = m := gq_replicate _ _ ht
      have hAt : gq (List.replicate cfg.n_steps Ti) t = Ti := gq_replicate _ _ ht
      refine ⟨m * c.params.dt / (c.params.mass_node + m * c.params.dt),
        div_nonneg (mul_nonneg hm.le hpdt.le) (by nlinarith), ?_, ?_⟩
      · rw [div_le_one (by nlinarith)]
        nlinarith
      · rw [Trow]
        unfold stepRow
        rw [preAdvect_skip hpu hpG, hBt, hAt]
        unfold advect
        rw [if_pos hm]
        unfold chargeAdvect
        dsimp only
        rw [hiin]
        have hlen0 : 0 < (Trow c.params (List.replicate cfg.n_steps Ti)
            (List.replicate cfg.n_steps m) d (List.replicate cfg.n_nodes θ) t).length := by
          rw [hlenR t]
          show 0 < c.n_nodes
          omega
        split
        · rw [gq_zero_chargeFold, gq_set_self _ _ _ hlen0]
        · rw [gq_set_self _ _ _ hlen0]
    · have hBt : gq (List.replicate cfg.n_steps m) t = 0 := by
        apply gq_ge_length
        rw [List.length_replicate]
        omega
      refine ⟨0, le_refl 0, by norm_num, ?_⟩
      rw [Trow]
      unfold stepRow
      rw [hBt, preAdvect_skip hpu hpG, advect_idle]
      ring
  have hbound : ∀ t, gq (Trow c.params (List.replicate cfg.n_steps Ti)
      (List.replicate cfg.n_steps m) d (List.replicate cfg.n_nodes θ) t) 0 ≤ Ti := by
    intro t
    induction t with
    | zero =>
      show gq (List.replicate cfg.n_nodes θ) 0 ≤ Ti
      rw [gq_replicate _ _ (by omega : 0 < cfg.n_nodes)]
      exact hθ.le
    | succ t ih =>
      obtain ⟨β, hβ0, hβ1, heq⟩ := hβ t
      rw [heq]
      nlinarith [mul_nonneg (sub_nonneg.mpr hβ1) (sub_nonneg.mpr ih)]
  intro t
  refine ⟨?_, hbound t⟩
  obtain ⟨β, hβ0, hβ1, heq⟩ := hβ t
  rw [heq]
  nlinarith [mul_nonneg hβ0 (sub_nonneg.mpr (hbound t))]

/-- Witness for the amended C7: one charging step of `cfgU` from the
uniform profile at `0` with `Tin_charge = 1`. -/
theorem c7_amended_witness :
    gq (Trow (normConfig cfgU).params (List.replicate cfgU.n_steps 1)
          (List.replicate cfgU.n_steps 1) [0] (List.replicate cfgU.n_nodes 0) 0) 0 ≤
      gq (Trow (normConfig cfgU).params (List.replicate cfgU.n_steps 1)
          (List.replicate cfgU.n_steps 1) [0] (List.replicate cfgU.n_nodes 0) 1) 0 ∧
    gq (Trow (normConfig cfgU).params (List.replicate cfgU.n_steps 1)
          (List.replicate cfgU.n_steps 1) [0] (List.replicate cfgU.n_nodes 0) 0) 0 ≤ 1 :=
  c7_amended_bottom_monotone cfgU (normConfig cfgU) 0 1 1 [0]
    (by decide) (by decide) (by decide) (by decide) (by norm_num) (by norm_num) 0

/-! ### Claim C10 -/

lemma foldl_min_le_init (xs : List ℚ) (a : ℚ) : xs.foldl min a ≤ a := by
  induction xs generalizing a with
  | nil => exact le_refl a
  | cons b xs ih => exact le_trans (ih (min a b)) (min_le_left a b)

lemma foldl_min_le_mem {x : ℚ} (xs : List ℚ) (a : ℚ) (h : x ∈ xs) :
    xs.foldl min a ≤ x := by
  induction xs generalizing a with
  | nil => cases h
  | cons b xs ih =>
    rcases List.mem_cons.mp h with rfl | h2
    · exact le_trans (foldl_min_le_init xs (min a x)) (min_le_right a x)
    · exact ih (min a b) h2

lemma listMin_le {l : List ℚ} {x : ℚ} (h : x ∈ l) : listMin l ≤ x := by
  cases l with
  | nil => cases h
  | cons a xs =>
    show xs.foldl min a ≤ x
    rcases List.mem_cons.mp h with rfl | h2
    · exact foldl_min_le_init xs x
    · exact foldl_min_le_mem xs a h2

lemma init_le_foldl_max (xs : List ℚ) (a : ℚ) : a ≤ xs.foldl max a := by
  induction xs generalizing a with
  | nil => exact le_refl a
  | cons b xs ih => exact le_trans (le_max_left a b) (ih (max a b))

lemma mem_le_foldl_max {x : ℚ} (xs : List ℚ) (a : ℚ) (h : x ∈ xs) :
    x ≤ xs.foldl max a := by
  induction xs generalizing a with
  | nil => cases h
  | cons b xs ih =>
    rcases List.mem_cons.mp h with rfl | h2
    · exact le_trans (le_max_right a x) (init_le_foldl_max xs (max a x))
    · exact ih (max a b) h2

lemma le_listMax {l : List ℚ} {x : ℚ} (h : x ∈ l) : x ≤ listMax l := by
  cases l with
  | nil => cases h
  | cons a xs =>
    show x ≤ xs.foldl max a
    rcases List.mem_cons.mp h with rfl | h2
    · exact init_le_foldl_max xs x
    · exact mem_le_foldl_max xs a h2

/-- A convex combination of two values in `[lo, hi]` stays in `[lo, hi]`. -/
lemma convex_bounds {lo hi x y f : ℚ} (hf0 : 0 ≤ f) (hf1 : f ≤ 1)
    (hx0 : lo ≤ x) (hx1 : x ≤ hi) (hy0 : lo ≤ y) (hy1 : y ≤ hi) :
    lo ≤ (1 - f) * x + f * y ∧ (1 - f) * x + f * y ≤ hi := by
  constructor
  · nlinarith [mul_nonneg (sub_nonneg.mpr hf1) (sub_nonneg.mpr hx0),
      mul_nonneg hf0 (sub_nonneg.mpr hy0)]
  · nlinarith [mul_nonneg (sub_nonneg.mpr hf1) (sub_nonneg.mpr hx1),
      mul_nonneg hf0 (sub_nonneg.mpr hy1)]

lemma mixInto_bounds {f lo hi : ℚ} (hf0 : 0 ≤ f) (hf1 : f ≤ 1) {dst src : Nat}
    {T : List ℚ} (hdst : dst < T.length) (hsrc : src < T.length)
    (hP : ∀ x ∈ T, lo ≤ x ∧ x ≤ hi) :
    ∀ x ∈ mixInto f dst src T, lo ≤ x ∧ x ≤ hi := by
  intro x hx
  unfold mixInto at hx
  rcases List.mem_or_eq_of_mem_set hx with h | h
  · exact hP x h
  · subst h
    obtain ⟨hd0, hd1⟩ := hP _ (gq_mem T dst hdst)
    obtain ⟨hs0, hs1⟩ := hP _ (gq_mem T src hsrc)
    exact convex_bounds hf0 hf1 hd0 hd1 hs0 hs1

lemma mixFold_bounds {f lo hi : ℚ} (hf0 : 0 ≤ f) (hf1 : f ≤ 1) (af bf : Nat → Nat)
    (idxs : List Nat) :
    ∀ T : List ℚ, (∀ i ∈ idxs, af i < T.length ∧ bf i < T.length) →
      (∀ x ∈ T, lo ≤ x ∧ x ≤ hi) →
      ∀ x ∈ idxs.foldl (fun T i => mixInto f (af i) (bf i) T) T, lo ≤ x ∧ x ≤ hi := by
  induction idxs with
  | nil => intro T _ hP x hx; exact hP x hx
  | cons i l ih =>
    intro T hidx hP
    rw [List.foldl_cons]
    apply ih
    · intro j hj
      rw [length_mixInto]
      exact hidx j (List.mem_cons_of_mem i hj)
    · exact mixInto_bounds hf0 hf1 (hidx i (List.mem_cons_self i l)).1
        (hidx i (List.mem_cons_self i l)).2 hP

lemma chargeAdvect_bounds {alpha frac Tin lo hi : ℚ} (ha0 : 0 ≤ alpha) (ha1 : alpha ≤ 1)
    (hf0 : 0 ≤ frac) (hf1 : frac ≤ 1) {i_in n : Nat} {T : List ℚ}
    (hTlen : T.length = n) (hin : i_in < n) (hTin0 : lo ≤ Tin) (hTin1 : Tin ≤ hi)
    (hP : ∀ x ∈ T, lo ≤ x ∧ x ≤ hi) :
    ∀ x ∈ chargeAdvect i_in n alpha frac Tin T, lo ≤ x ∧ x ≤ hi := by
  unfold chargeAdvect
  dsimp only
  have hP1 : ∀ x ∈ T.set i_in ((1 - alpha) * gq T i_in + alpha * Tin),
      lo ≤ x ∧ x ≤ hi := by
    intro x hx
    rcases List.mem_or_eq_of_mem_set hx with h | h
    · exact hP x h
    · subst h
      obtain ⟨h0, h1⟩ := hP _ (gq_mem T i_in (by omega))
      exact convex_bounds ha0 ha1 h0 h1 hTin0 hTin1
  split_ifs with hcase
  · apply mixFold_bounds hf0 hf1 (fun i => i + 1) (fun i => i)
    · intro j hj
      rw [List.length_set, hTlen]
      rw [List.mem_range'_1] at hj
      omega
    · exact hP1
  · exact hP1

lemma dischargeAdvect_bounds {frac lo hi : ℚ} (hf0 : 0 ≤ frac) (hf1 : frac ≤ 1)
    {i_out n : Nat} {T : List ℚ} (hTlen : T.length = n) (hn : 2 ≤ n) (hout : i_out < n)
    (hP : ∀ x ∈ T, lo ≤ x ∧ x ≤ hi) :
    ∀ x ∈ dischargeAdvect i_out n frac T, lo ≤ x ∧ x ≤ hi := by
  unfold dischargeAdvect
  split_ifs with h1 h2
  · apply mixFold_bounds hf0 hf1 (fun i => i) (fun i => i - 1)
    · intro j hj
      rw [length_mixInto, hTlen]
      rw [List.mem_reverse, List.mem_range'_1] at hj
      omega
    · exact mixInto_bounds hf0 hf1 (by omega) (by omega) hP
  · apply mixFold_bounds hf0 hf1 (fun i => i) (fun i => i + 1)
    · intro j hj
      rw [length_mixInto, hTlen]
      rw [List.mem_range] at hj
      omega
    · exact mixInto_bounds hf0 hf1 (by omega) (by omega) hP
  · exact hP

/-- C10: with `ua_loss = 0` and `k_cond = 0` every step maps the node
temperatures into the interval hull of its inputs: on a charging step
every new node value lies between `min(min_j T[t][j], Tin_charge[t])`
and `max(max_j T[t][j], Tin_charge[t])`; on an idle or discharging step
it lies between `min_j T[t][j]` and `max_j T[t][j]` — every advection
assignment is a convex combination (`alpha ∈ [0,1)`, `frac ∈ [0,1]`). -/
theorem c10_interval_hull (cfg c : TankConfig) (a b d e : List ℚ)
    (hv : cfg.validate = .ok c) (hua : cfg.ua_loss = 0) (hk : cfg.k_cond = 0)
    (he : e.length = cfg.n_nodes) :
    ∀ t i, i < cfg.n_nodes →
      (0 < gq b t →
        min (listMin (Trow c.params a b d e t)) (gq a t) ≤
            gq (Trow c.params a b d e (t + 1)) i ∧
          gq (Trow c.params a b d e (t + 1)) i ≤
            max (listMax (Trow c.params a b d e t)) (gq a t)) ∧
      (gq b t ≤ 0 →
        listMin (Trow c.params a b d e t) ≤ gq (Trow c.params a b d e (t + 1)) i ∧
          gq (Trow c.params a b d e (t + 1)) i ≤ listMax (Trow c.params a b d e t)) := by
  obtain ⟨hg, hc⟩ := (validate_ok_iff cfg c).mp hv
  obtain ⟨hn2, hh, hvol, hrho, hcp, hdt, hns, hci, hdo⟩ := hg
  have hcu : c.ua_loss = 0 := by rw [hc, normConfig_ua_loss, hua]
  have hck : c.k_cond = 0 := by rw [hc, normConfig_k_cond, hk]
  have hpu : ¬ c.params.ua_node > 0 := by
    rw [params_ua_node_zero (le_of_eq hcu)]; exact lt_irrefl 0
  have hpG : ¬ c.params.G_cond > 0 := by
    rw [params_G_cond_zero (le_of_eq hck)]; exact lt_irrefl 0
  have hnn : c.n_nodes = cfg.n_nodes := by rw [hc, normConfig_n_nodes]
  have hpn : c.params.n = cfg.n_nodes := by rw [← hnn]; rfl
  have hmass : 0 < c.params.mass_node :=
    mass_node_pos (by omega) (by rw [hc, normConfig_height]; exact hh)
      (by rw [hc, normConfig_volume]; exact hvol) (by rw [hc, normConfig_rho]; exact hrho)
  have hpdt : 0 < c.params.dt := by
    show 0 < c.dt
    rw [hc, normConfig_dt]
    exact hdt
  have hiin : c.params.i_in < c.params.n := by
    show c.charge_inlet.toNat < c.n_nodes
    rw [hc, normConfig_charge_inlet, normConfig_n_nodes]
    omega
  have hiout : c.params.i_out < c.params.n := by
    show c.discharge_outlet.toNat < c.n_nodes
    rw [hc, normConfig_n_nodes]
    omega
  have hlenR : ∀ t, (Trow c.params a b d e t).length = c.params.n :=
    length_Trow c.params a b d e (by rw [he, hpn])
  intro t i hi
  have hstep : Trow c.params a b d e (t + 1) =
      advect c.params (gq b t) (gq a t) (Trow c.params a b d e t) := by
    rw [Trow]
    unfold stepRow
    rw [preAdvect_skip hpu hpG]
  have hmemN : gq (Trow c.params a b d e (t + 1)) i ∈ Trow c.params a b d e (t + 1) :=
    gq_mem _ i (by rw [hlenR, hpn]; exact hi)
  constructor
  · intro hmf
    have hall : ∀ x ∈ Trow c.params a b d e (t + 1),
        min (listMin (Trow c.params a b d e t)) (gq a t) ≤ x ∧
          x ≤ max (listMax (Trow c.params a b d e t)) (gq a t) := by
      rw [hstep]
      unfold advect
      rw [if_pos hmf]
      apply chargeAdvect_bounds
      · exact div_nonneg (mul_nonneg hmf.le hpdt.le) (by nlinarith)
      · rw [div_le_one (by nlinarith)]
        nlinarith
      · exact le_min zero_le_one (div_nonneg (mul_nonneg hmf.le hpdt.le) hmass.le)
      · exact min_le_left 1 _
      · exact hlenR t
      · exact hiin
      · exact min_le_right _ _
      · exact le_max_right _ _
      · intro x hx
        exact ⟨le_trans (min_le_left _ _) (listMin_le hx),
          le_trans (le_listMax hx) (le_max_left _ _)⟩
    exact hall _ hmemN
  · intro hmf
    have hall : ∀ x ∈ Trow c.params a b d e (t + 1),
        listMin (Trow c.params a b d e t) ≤ x ∧
          x ≤ listMax (Trow c.params a b d e t) := by
      rw [hstep]
      unfold advect
      rw [if_neg (not_lt.mpr hmf)]
      split_ifs with hneg
      · apply dischargeAdvect_bounds
        · exact le_min zero_le_one
            (div_nonneg (mul_nonneg (abs_nonneg _) hpdt.le) hmass.le)
        · exact min_le_left 1 _
        · exact hlenR t
        · show 2 ≤ c.params.n
          rw [hpn]
          exact hn2
        · exact hiout
        · intro x hx
          exact ⟨listMin_le hx, le_listMax hx⟩
      · intro x hx
        exact ⟨listMin_le hx, le_listMax hx⟩
    exact hall _ hmemN

/-- Witness for C10 at `cfgU` charging from `[0, 4]` with inlet `10`:
the new row stays in the hull of `{0, 4, 10}`. -/
theorem c10_witness :
    (0 < gq [1] 0 →
      min (listMin (Trow (normConfig cfgU).params [10] [1] [0] [0, 4] 0)) (gq [10] 0) ≤
          gq (Trow (normConfig cfgU).params [10] [1] [0] [0, 4] 1) 0 ∧
        gq (Trow (normConfig cfgU).params [10] [1] [0] [0, 4] 1) 0 ≤
          max (listMax (Trow (normConfig cfgU).params [10] [1] [0] [0, 4] 0)) (gq [10] 0)) ∧
    (gq [1] 0 ≤ 0 →
      listMin (Trow (normConfig cfgU).params [10] [1] [0] [0, 4] 0) ≤
          gq (Trow (normConfig cfgU).params [10] [1] [0] [0, 4] 1) 0 ∧
        gq (Trow (normConfig cfgU).params [10] [1] [0] [0, 4] 1) 0 ≤
          listMax (Trow (normConfig cfgU).params [10] [1] [0] [0, 4] 0)) :=
  c10_interval_hull cfgU (normConfig cfgU) [10] [1] [0] [0, 4]
    (by decide) (by decide) (by decide) (by decide) 0 0 (by decide)

end Storage1D
